import Mathlib

/-!
Shallow embedding of `emotion_analyzer/media_utils.py` (image annotation and
media helpers of the emotion-ai repository) and proofs about it.

Modelling conventions:
* A pixel is its list of channel values; channel values are rationals
  (the Python code mixes integer pixel data with float alpha blending,
  both of which embed exactly into `ℚ`).
* An image (`numpy` array of shape height × width × channels) is a list of
  rows, each row a list of pixels.
* A nullable Python argument is an `Option`; a Python function that can
  `raise` returns `Except Exc _`.
* `numpy` buffers are mutable and passed by reference; functions that
  mutate their argument in place or allocate fresh arrays are embedded in
  state-passing style over a heap: a list of image buffers addressed by
  index.  `cv2` drawing calls mutate the addressed buffer; `np.array`,
  `.copy()` and PIL round-trips allocate a fresh buffer at a fresh index.
* External library primitives that compute pixels deterministically
  (`cv2.cvtColor`, `cv2.rectangle`, `numpy` slicing and arithmetic) are
  modelled concretely; PIL glyph rasterisation (`ImageDraw.text`) is kept
  abstract as a function parameter of type `TextDraw`.
-/

namespace MediaUtils

/-- A pixel: the list of its channel values. -/
abbrev Pix := List ℚ

/-- An image: a list of rows, each row a list of pixels
(height × width × channels, matching a 3-d numpy array). -/
abbrev Img := List (List Pix)

/-- The indexed map `mapFrom f k l`: maps `f` over `l` together with the running index,
starting at `k`.  `mapFrom f 0` is the indexed map used to embed
numpy's indexed slice assignments. -/
def mapFrom (f : Nat → α → α) : Nat → List α → List α
  | _, [] => []
  | k, a :: l => f k a :: mapFrom f (k + 1) l

/-- Pixel accessor: `px img y x` is row `y`, column `x` of `img`
(the empty pixel when out of bounds). -/
def px (img : Img) (y x : Nat) : Pix := (img.getD y []).getD x []

/-- Channel accessor: `chan img y x c` is channel `c` of pixel `(y, x)`
(`0` when out of bounds). -/
def chan (img : Img) (y x c : Nat) : ℚ := (px img y x).getD c 0

/-- Errors raised by the embedded code.  `invalidImage` models the
repository's `InvalidImage` exception (its class lives in
`emotion_analyzer/exceptions.py`, outside the given sources; the spec
describes it as the error for null/empty images).  `valueError` models
Python's built-in `ValueError`; `libError` stands for any error raised
inside an external library call. -/
inductive Exc
  | invalidImage
  | valueError
  | libError (msg : String)
deriving DecidableEq, Repr

/-- Modelled from the spec: `is_valid_img` lives in
`emotion_analyzer/validators.py`, which is not part of the given sources.
The spec says `convertToRGB` "validates the image is non-empty/non-null
(fails with an InvalidImage error otherwise)" and describes InvalidImage
as "raised when an image argument is null/empty".  So an image is valid
iff it is not null and holds at least one pixel. -/
def is_valid_img (image : Option Img) : Bool :=
  match image with
  | none => false
  | some img => decide (0 < (img.map List.length).sum)

/-- Model of the `cv2.cvtColor` channel swap for `COLOR_BGR2RGB` /
`COLOR_RGB2BGR` on one pixel: the first and third channel trade places. -/
def swap02 : Pix → Pix
  | a :: b :: c :: rest => c :: b :: a :: rest
  | l => l

/-- Model of `cv2.cvtColor(image, cv2.COLOR_BGR2RGB)`: swap channels 0 and 2
of every pixel. -/
def cvtColor_BGR2RGB (img : Img) : Img :=
  img.map (List.map swap02)

/-- Model of the inverse conversion `cv2.cvtColor(image, cv2.COLOR_RGB2BGR)`:
the same swap of channels 0 and 2. -/
def cvtColor_RGB2BGR (img : Img) : Img :=
  img.map (List.map swap02)

/-- Embedding of `convert_to_rgb` from `media_utils.py`: raise `InvalidImage` unless
`is_valid_img image`, else return `cv2.cvtColor(image, cv2.COLOR_BGR2RGB)`. -/
def convert_to_rgb (image : Option Img) : Except Exc Img :=
  if is_valid_img image = true then
    Except.ok (cvtColor_BGR2RGB (image.getD []))
  else
    Except.error Exc.invalidImage

/-- Python slice `l[a:b]` (step 1): negative indices count from the end,
out-of-range indices clamp. -/
def pySlice (a b : Int) (l : List α) : List α :=
  let n : Int := l.length
  let a' : Int := if a < 0 then max 0 (n + a) else min a n
  let b' : Int := if b < 0 then max 0 (n + b) else min b n
  (l.take b'.toNat).drop a'.toNat

/-- Embedding of `get_facial_ROI` from `media_utils.py`:
`raise InvalidImage if image is None else ValueError` when either argument
is null, otherwise return the numpy slice
`image[bbox[1]:bbox[3], bbox[0]:bbox[2], :]`. -/
def get_facial_ROI (image : Option Img) (bbox : Option (List Int)) :
    Except Exc Img :=
  match image, bbox with
  | none, _ => Except.error Exc.invalidImage
  | some _, none => Except.error Exc.valueError
  | some img, some bb =>
    Except.ok
      ((pySlice (bb.getD 1 0) (bb.getD 3 0) img).map
        (pySlice (bb.getD 0 0) (bb.getD 2 0)))

/-- Embedding of `load_image_path` from `media_utils.py`.  `cv2.imread` is an external
call, passed as a parameter; it may return a decoded image, return null
(as `cv2.imread` does on unreadable paths) or raise.  The function's
`try/except` re-raises the caught exception unchanged, so it is the
identity on errors. -/
def load_image_path (imread : String → Except Exc (Option Img))
    (img_path : String) (mode : String) : Except Exc (Option Img) :=
  match imread img_path with
  | Except.error e => Except.error e
  | Except.ok img =>
    if mode = "rgb" then (convert_to_rgb img).map some
    else Except.ok img

/-- Whether pixel `(x, y)` is painted by
`cv2.rectangle(img, (x1, y1), (x2, y2), color, t)`.  Corners are
normalised (cv2 accepts any two opposite corners) and both corner pixels
are included.  `t < 0` (`cv2.FILLED`) paints the whole rectangle; a
positive thickness `t` paints the band of the `t` pixels adjacent to the
border inside the rectangle — the model of cv2's thick outline. -/
abbrev rectCovered (x1 y1 x2 y2 t x y : Int) : Prop :=
  min x1 x2 ≤ x ∧ x ≤ max x1 x2 ∧ min y1 y2 ≤ y ∧ y ≤ max y1 y2 ∧
    (t < 0 ∨
      ¬ (min x1 x2 + t ≤ x ∧ x ≤ max x1 x2 - t ∧
         min y1 y2 + t ≤ y ∧ y ≤ max y1 y2 - t))

/-- Model of `cv2.rectangle(img, (x1, y1), (x2, y2), color, t)`: every
covered pixel becomes `color`, all others are untouched. -/
def cv2_rectangle (img : Img) (x1 y1 x2 y2 : Int) (color : Pix) (t : Int) :
    Img :=
  mapFrom
    (fun yi row =>
      mapFrom
        (fun xi p =>
          if rectCovered x1 y1 x2 y2 t (xi : Int) (yi : Int) then color
          else p)
        0 row)
    0 img

/-- A truetype font handle: file path and point size. -/
abbrev Font := String × Nat

/-- The font `warning_font = ImageFont.truetype("data/Ubuntu-R.ttf", 20)`. -/
def warning_font : Font := ("data/Ubuntu-R.ttf", 20)

/-- The font `annotation_font = ImageFont.truetype("data/Ubuntu-R.ttf", 16)`. -/
def annotation_font : Font := ("data/Ubuntu-R.ttf", 16)

/-- The font `bbox_font = ImageFont.truetype("data/Ubuntu-R.ttf", 16)`. -/
def bbox_font : Font := ("data/Ubuntu-R.ttf", 16)

/-- Abstract PIL text rasteriser: `ImageDraw.Draw(i).text(pos, s, color,
font)` as a pure function from the drawn-on image to the resulting image.
PIL glyph rendering is an external primitive, so the embedded drawing
functions take it as a parameter. -/
abbrev TextDraw := Int × Int → String → Pix → Font → Img → Img

/-- The mutable store of numpy buffers: index = buffer identity. -/
abbrev Heap := List Img

/-- Allocate a fresh buffer holding `im`; returns the new heap and the
fresh buffer's index. -/
def alloc (h : Heap) (im : Img) : Heap × Nat := (h ++ [im], h.length)

/-- Embedding of `draw_bounding_box` from `media_utils.py`:
`cv2.rectangle(image, (x1, y1), (x2, y2), color, 2)` (mutating its buffer
in place and returning it; the pixel transformation is pure). -/
def draw_bounding_box (image : Img) (bbox : List Int) (color : Pix) : Img :=
  cv2_rectangle image (bbox.getD 0 0) (bbox.getD 1 0) (bbox.getD 2 0)
    (bbox.getD 3 0) color 2

/-- Embedding of `draw_bounding_box_annotation` from `media_utils.py`, on the heap:
draw the outline at `(x1, y1)-(x2, y2 + 20)` (via `draw_bounding_box`),
fill the label strip `(x1, y2)-(x2, y2 + 20)` (both mutate buffer `b` in
place), then draw the label through PIL on a fresh copy and return the
fresh buffer (`np.array(pil_img)` allocates).  The Python default color
is `(84, 247, 131)`. -/
def draw_bounding_box_annotation (dt : TextDraw) (label : String)
    (bbox : List Int) (color : Pix) (h : Heap) (b : Nat) : Heap × Nat :=
  let img := h.getD b []
  let x1 := bbox.getD 0 0
  let y1 := bbox.getD 1 0
  let x2 := bbox.getD 2 0
  let y2 := bbox.getD 3 0
  let img1 := draw_bounding_box img [x1, y1, x2, y2 + 20] color
  let img2 := cv2_rectangle img1 x1 y2 x2 (y2 + 20) color (-1)
  let h1 := h.set b img2
  alloc h1 (dt (x1 + 20, y2 + 2) label [0, 0, 0] bbox_font img2)

/-- Embedding of `annotate_warning` from `media_utils.py`, on the heap: all drawing
happens on `Image.fromarray(img.copy())`, so buffer `b` is untouched and
the PIL result is returned as a fresh buffer. -/
def annotate_warning (dt : TextDraw) (warning_text : String) (h : Heap)
    (b : Nat) : Heap × Nat :=
  let img := h.getD b []
  let x : Int := 150
  let y : Int := (img.length : Int) - 100
  let i1 := dt (x + 1, y + 1) warning_text [0, 0, 0] warning_font img
  let i2 := dt (x, y) warning_text [12, 52, 242] warning_font i1
  let i3 :=
    dt (x, y + 31) ("Emotion chart will be shown for one person only!")
      [255, 255, 255] warning_font i2
  alloc h i3

/-- The bar-drawing pass of `annotate_emotion_stats`, with the running
display index `k`: for each entry `(emotion, conf)`,
`cv2.rectangle(img, (100, k * 20 + 20), (100 + conf, (k + 1) * 20 + 18),
(255, 0, 0), -1)`, drawn into `img` in place.  `(k + 1) * 20 + 18` is
written `20 * k + 38`. -/
def draw_bars_from (k : Nat) : List (String × Int) → Img → Img
  | [], img => img
  | e :: rest, img =>
    draw_bars_from (k + 1) rest
      (cv2_rectangle img 100 (20 * (k : Int) + 20) (100 + e.2)
        (20 * (k : Int) + 38) [255, 0, 0] (-1))

/-- All confidence bars of `annotate_emotion_stats`, display indices from
`0`. -/
def draw_bars (emotion_data : List (String × Int)) (img : Img) : Img :=
  draw_bars_from 0 emotion_data img

/-- The text pass of `annotate_emotion_stats`: for each entry at display
index `k`, the emotion label at `(10, k * 20 + 20)` in color
`(7, 109, 16)` and then `str(conf) + "%"` at `(105 + conf, k * 20 + 20)`
in color `(255, 0, 0)`, both in `annotation_font`. -/
def annotate_texts_from (dt : TextDraw) (k : Nat) :
    List (String × Int) → Img → Img
  | [], im => im
  | e :: rest, im =>
    annotate_texts_from dt (k + 1) rest
      (dt (105 + e.2, 20 * (k : Int) + 20) (toString e.2 ++ "%") [255, 0, 0]
        annotation_font
        (dt (10, 20 * (k : Int) + 20) e.1 [7, 109, 16] annotation_font im))

/-- Embedding of `annotate_emotion_stats` from `media_utils.py`, on the heap.
`emotion_data` is the ordered dict as its list of key/value pairs.  The
`cv2.rectangle` bar pass mutates buffer `b` in place; then
`Image.fromarray(img.copy())` snapshots the bar-annotated buffer, the
text pass draws on that copy, and `np.array(pil_img)` is returned as a
fresh buffer. -/
def annotate_emotion_stats (dt : TextDraw)
    (emotion_data : List (String × Int)) (h : Heap) (b : Nat) :
    Heap × Nat :=
  let img := h.getD b []
  let bars := draw_bars emotion_data img
  let h1 := h.set b bars
  alloc h1 (annotate_texts_from dt 0 emotion_data bars)

/-- One pixel of the `draw_emoji` overlay: for each color channel
`c < 3`, `emoji_c * (emoji_3 / 255) + img_c * (1 - emoji_3 / 255)`; any
further channels are untouched.  `e` is the emoji pixel, `p` the image
pixel. -/
def blendPix (e p : Pix) : Pix :=
  mapFrom
    (fun c v =>
      if c < 3 then
        e.getD c 0 * (e.getD 3 0 / 255) + v * (1 - e.getD 3 0 / 255)
      else v)
    0 p

/-- Embedding of `draw_emoji` from `media_utils.py`: for the three color channels,
`img[350:470, 10:130, c] = emoji[:, :, c] * (emoji[:, :, 3] / 255.0)
+ img[350:470, 10:130, c] * (1.0 - emoji[:, :, 3] / 255.0)`, the emoji
pixel at `(y - 350, x - 10)` blending onto the image pixel at `(y, x)`.
The buffer is mutated in place and returned. -/
def draw_emoji (emoji img : Img) : Img :=
  mapFrom
    (fun yi row =>
      if 350 ≤ yi ∧ yi < 470 then
        mapFrom
          (fun xi p =>
            if 10 ≤ xi ∧ xi < 130 then
              blendPix (px emoji (yi - 350) (xi - 10)) p
            else p)
          0 row
      else row)
    0 img

theorem length_mapFrom (f : Nat → α → α) (k : Nat) (l : List α) :
    (mapFrom f k l).length = l.length := by
  induction l generalizing k with
  | nil => rfl
  | cons a l ih => simp [mapFrom, ih]

theorem getD_mapFrom (f : Nat → α → α) (k i : Nat) (l : List α) (d : α)
    (h : i < l.length) :
    (mapFrom f k l).getD i d = f (k + i) (l.getD i d) := by
  induction l generalizing k i with
  | nil => simp at h
  | cons a l ih =>
    cases i with
    | zero => simp [mapFrom]
    | succ j =>
      simp only [mapFrom, List.getD_cons_succ]
      rw [ih (k + 1) j (by simpa using h)]
      ring_nf

theorem getD_mapFrom_ge (f : Nat → α → α) (k i : Nat) (l : List α) (d : α)
    (h : l.length ≤ i) : (mapFrom f k l).getD i d = d :=
  List.getD_eq_default _ _ (by rw [length_mapFrom]; exact h)

theorem swap02_swap02 (p : Pix) : swap02 (swap02 p) = p := by
  match p with
  | [] => rfl
  | [a] => rfl
  | [a, b] => rfl
  | a :: b :: c :: rest => rfl

theorem map_swap02_swap02 (row : List Pix) :
    (row.map swap02).map swap02 = row := by
  induction row with
  | nil => rfl
  | cons p r ih => simp [swap02_swap02, ih]

theorem cvtColor_round_trip (img : Img) :
    cvtColor_RGB2BGR (cvtColor_BGR2RGB img) = img := by
  unfold cvtColor_RGB2BGR cvtColor_BGR2RGB
  induction img with
  | nil => rfl
  | cons r t ih => simp only [List.map_cons, map_swap02_swap02, ih]

theorem pySlice_mem {l : List α} {a b : Int} {x : α}
    (h : x ∈ pySlice a b l) : x ∈ l :=
  List.mem_of_mem_take (List.mem_of_mem_drop h)

theorem pySlice_length_of_bounds (l : List α) (a b : Int)
    (ha : 0 ≤ a) (hab : a ≤ b) (hb : b ≤ l.length) :
    (pySlice a b l).length = (b - a).toNat := by
  have ha' : ¬ a < 0 := not_lt.mpr ha
  have hb' : ¬ b < 0 := not_lt.mpr (le_trans ha hab)
  simp only [pySlice, ha', hb', if_false]
  have hminb : min b (l.length : Int) = b := min_eq_left hb
  have hmina : min a (l.length : Int) = a := min_eq_left (le_trans hab hb)
  rw [hminb, hmina, List.length_drop, List.length_take]
  have hbn : b.toNat ≤ l.length := by omega
  omega

theorem length_cv2_rectangle (img : Img) (x1 y1 x2 y2 : Int) (color : Pix)
    (t : Int) : (cv2_rectangle img x1 y1 x2 y2 color t).length = img.length :=
    length_mapFrom _ _ _

theorem row_length_cv2_rectangle (img : Img) (x1 y1 x2 y2 : Int)
    (color : Pix) (t : Int) (y : Nat) (hy : y < img.length) :
    ((cv2_rectangle img x1 y1 x2 y2 color t).getD y []).length =
      (img.getD y []).length := by
  unfold cv2_rectangle
  rw [getD_mapFrom _ 0 y img [] hy, length_mapFrom]

theorem px_cv2_rectangle (img : Img) (x1 y1 x2 y2 : Int) (color : Pix)
    (t : Int) (y x : Nat) :
    px (cv2_rectangle img x1 y1 x2 y2 color t) y x =
      if y < img.length ∧ x < (img.getD y []).length ∧
          rectCovered x1 y1 x2 y2 t (x : Int) (y : Int) then color
      else px img y x := by
  unfold px cv2_rectangle
  by_cases hy : y < img.length
  · rw [getD_mapFrom _ 0 y img [] hy]
    simp only [Nat.zero_add]
    by_cases hx : x < (img.getD y []).length
    · rw [getD_mapFrom _ 0 x (img.getD y []) [] hx]
      simp only [Nat.zero_add]
      by_cases hc : rectCovered x1 y1 x2 y2 t (x : Int) (y : Int)
      · rw [if_pos hc, if_pos ⟨hy, hx, hc⟩]
      · rw [if_neg hc, if_neg (fun hcon => hc hcon.2.2)]
    · rw [getD_mapFrom_ge _ 0 x (img.getD y []) [] (le_of_not_lt hx)]
      rw [if_neg (fun hcon => hx hcon.2.1)]
      rw [List.getD_eq_default (img.getD y []) [] (le_of_not_lt hx)]
  · rw [getD_mapFrom_ge _ 0 y img [] (le_of_not_lt hy)]
    rw [if_neg (fun hcon => hy hcon.1)]
    rw [List.getD_eq_default img [] (le_of_not_lt hy)]

theorem px_draw_emoji (emoji img : Img) (y x : Nat) :
    px (draw_emoji emoji img) y x =
      if y < img.length ∧ x < (img.getD y []).length ∧
          (350 ≤ y ∧ y < 470) ∧ (10 ≤ x ∧ x < 130) then
        blendPix (px emoji (y - 350) (x - 10)) (px img y x)
      else px img y x := by
  unfold px draw_emoji
  by_cases hy : y < img.length
  · rw [getD_mapFrom _ 0 y img [] hy]
    simp only [Nat.zero_add]
    by_cases hrow : 350 ≤ y ∧ y < 470
    · rw [if_pos hrow]
      by_cases hx : x < (img.getD y []).length
      · rw [getD_mapFrom _ 0 x (img.getD y []) [] hx]
        simp only [Nat.zero_add]
        by_cases hcol : 10 ≤ x ∧ x < 130
        · rw [if_pos hcol, if_pos ⟨hy, hx, hrow, hcol⟩]
          rfl
        · rw [if_neg hcol, if_neg (fun hcon => hcol hcon.2.2.2)]
      · rw [getD_mapFrom_ge _ 0 x (img.getD y []) [] (le_of_not_lt hx)]
        rw [if_neg (fun hcon => hx hcon.2.1)]
        rw [List.getD_eq_default (img.getD y []) [] (le_of_not_lt hx)]
    · rw [if_neg hrow, if_neg (fun hcon => hrow hcon.2.2.1)]
  · rw [getD_mapFrom_ge _ 0 y img [] (le_of_not_lt hy)]
    rw [if_neg (fun hcon => hy hcon.1)]
    rw [List.getD_eq_default img [] (le_of_not_lt hy)]

theorem getD_blendPix (e p : Pix) (c : Nat) (hc : c < p.length) :
    (blendPix e p).getD c 0 =
      if c < 3 then
        e.getD c 0 * (e.getD 3 0 / 255) +
          p.getD c 0 * (1 - e.getD 3 0 / 255)
      else p.getD c 0 := by
  unfold blendPix
  rw [getD_mapFrom _ 0 c p 0 hc]
  simp only [Nat.zero_add]

theorem mem_of_getD {l : List α} {i : Nat} {d : α} (h : i < l.length) :
    l.getD i d ∈ l := by
  rw [List.getD_eq_getElem?_getD, List.getElem?_eq_getElem h]
  exact List.getElem_mem _

theorem heap_getD_set_self (h : Heap) (b : Nat) (im : Img)
    (hb : b < h.length) : (h.set b im).getD b [] = im := by
  rw [List.getD_eq_getElem?_getD, List.getElem?_set_self]
  · simp
  · exact hb

theorem heap_getD_append (h : Heap) (im : Img) (b : Nat)
    (hb : b < h.length) : (h ++ [im]).getD b [] = h.getD b [] :=
  List.getD_append h [im] [] b hb

theorem heap_getD_append_self (h : Heap) (im : Img) :
    (h ++ [im]).getD h.length [] = im := by
  rw [List.getD_eq_getElem?_getD, List.getElem?_append_right (le_refl _)]
  simp

theorem px_draw_bars_from_low (data : List (String × Int)) :
    ∀ (k : Nat) (img : Img) (y x : Nat),
      (y : Int) < 20 * (k : Int) + 20 →
      px (draw_bars_from k data img) y x = px img y x := by
  induction data with
  | nil => intro k img y x _; rfl
  | cons e rest ih =>
    intro k img y x hy
    rw [draw_bars_from]
    rw [ih (k + 1) _ y x (by push_cast at hy ⊢; omega)]
    rw [px_cv2_rectangle]
    rw [if_neg (fun hcon => by
      have hminy := hcon.2.2.2.2.1
      omega)]

theorem px_draw_bars_from_bar (data : List (String × Int)) :
    ∀ (k j : Nat) (img : Img) (y x : Nat),
      j < data.length →
      100 ≤ (x : Int) → (x : Int) ≤ 100 + (data.getD j ("", 0)).2 →
      20 * ((k + j : Nat) : Int) + 20 ≤ (y : Int) →
      (y : Int) ≤ 20 * ((k + j : Nat) : Int) + 38 →
      y < img.length → x < (img.getD y []).length →
      px (draw_bars_from k data img) y x = [255, 0, 0] := by
  induction data with
  | nil => intro k j img y x hj _ _ _ _ _ _; simp at hj
  | cons e rest ih =>
    intro k j img y x hj hx1 hx2 hy1 hy2 hyb hxb
    rw [draw_bars_from]
    cases j with
    | zero =>
      have hk : ((k + 0 : Nat) : Int) = (k : Int) := by push_cast; ring
      rw [hk] at hy1 hy2
      have hconf : (((e :: rest).getD 0 ("", 0)).2 : Int) = e.2 := by
        rw [List.getD_cons_zero]
      rw [hconf] at hx2
      have hcov : rectCovered 100 (20 * (k : Int) + 20) (100 + e.2)
          (20 * (k : Int) + 38) (-1) (x : Int) (y : Int) := by
        refine ⟨by omega, by omega, by omega, by omega, Or.inl (by omega)⟩
      rw [px_draw_bars_from_low rest (k + 1) _ y x (by push_cast; omega)]
      rw [px_cv2_rectangle]
      rw [if_pos ⟨hyb, hxb, hcov⟩]
    | succ j' =>
      have hj' : j' < rest.length := by simpa using hj
      have hgd : (e :: rest).getD (j' + 1) ("", 0) = rest.getD j' ("", 0) :=
        List.getD_cons_succ
      rw [hgd] at hx2
      have hidx : ((k + (j' + 1) : Nat) : Int) = (((k + 1) + j' : Nat) : Int) := by
        push_cast; ring
      rw [hidx] at hy1 hy2
      have hyb' : y < (cv2_rectangle img 100 (20 * (k : Int) + 20)
          (100 + e.2) (20 * (k : Int) + 38) [255, 0, 0] (-1)).length := by
        rw [length_cv2_rectangle]; exact hyb
      have hxb' : x < ((cv2_rectangle img 100 (20 * (k : Int) + 20)
          (100 + e.2) (20 * (k : Int) + 38) [255, 0, 0] (-1)).getD y []).length := by
        rw [row_length_cv2_rectangle _ _ _ _ _ _ _ _ hyb]; exact hxb
      exact ih (k + 1) j' _ y x hj' hx1 hx2 hy1 hy2 hyb' hxb'

theorem px_draw_bars_from_untouched (data : List (String × Int)) :
    ∀ (k : Nat) (img : Img) (y x : Nat),
      (∀ j, j < data.length →
        ¬ rectCovered 100 (20 * ((k + j : Nat) : Int) + 20)
            (100 + (data.getD j ("", 0)).2)
            (20 * ((k + j : Nat) : Int) + 38) (-1) (x : Int) (y : Int)) →
      px (draw_bars_from k data img) y x = px img y x := by
  induction data with
  | nil => intro k img y x _; rfl
  | cons e rest ih =>
    intro k img y x hnone
    rw [draw_bars_from]
    rw [ih (k + 1) _ y x (fun j hj => by
      have hidx : ((k + (j + 1) : Nat) : Int) = (((k + 1) + j : Nat) : Int) := by
        push_cast; ring
      have hh := hnone (j + 1) (by simpa using Nat.succ_lt_succ hj)
      rw [List.getD_cons_succ, hidx] at hh
      exact hh)]
    rw [px_cv2_rectangle]
    rw [if_neg (fun hcon => by
      have hh := hnone 0 (by simp)
      rw [List.getD_cons_zero] at hh
      have hk : ((k + 0 : Nat) : Int) = (k : Int) := by push_cast; ring
      rw [hk] at hh
      exact hh hcon.2.2)]

theorem annotate_emotion_stats_unfold (dt : TextDraw)
    (data : List (String × Int)) (h : Heap) (b : Nat) :
    annotate_emotion_stats dt data h b =
      ((h.set b (draw_bars data (h.getD b []))) ++
          [annotate_texts_from dt 0 data (draw_bars data (h.getD b []))],
        (h.set b (draw_bars data (h.getD b []))).length) := rfl

/-- C1, counterexample.  The claim says every null *or empty* image makes
both `convert_to_rgb` and `get_facial_ROI` raise `InvalidImage`.  The empty
image `[]` (a zero-pixel array, hence invalid per `is_valid_img`) with a
non-null bbox makes `convert_to_rgb` raise `InvalidImage`, but
`get_facial_ROI` returns the (empty) slice without raising: its guard only
tests `image is None`. -/
theorem c1_counterexample :
    is_valid_img (some ([] : Img)) = false ∧
    get_facial_ROI (some ([] : Img)) (some [0, 0, 0, 0]) =
      Except.ok ([] : Img) ∧
    convert_to_rgb (some ([] : Img)) = Except.error Exc.invalidImage :=
  ⟨rfl, rfl, rfl⟩

/-- C1, amended.  For every *null* image argument both `convert_to_rgb`
and `get_facial_ROI` raise `InvalidImage`; for a non-null but empty
(invalid) image, `convert_to_rgb` still raises `InvalidImage`, while
`get_facial_ROI` with any non-null bbox raises nothing and returns the
slice. -/
theorem c1_amended_theorem :
    (∀ bbox, convert_to_rgb none = Except.error Exc.invalidImage ∧
      get_facial_ROI none bbox = Except.error Exc.invalidImage) ∧
    (∀ img : Img, is_valid_img (some img) = false →
      convert_to_rgb (some img) = Except.error Exc.invalidImage) ∧
    (∀ (img : Img) (bb : List Int),
      get_facial_ROI (some img) (some bb) =
        Except.ok ((pySlice (bb.getD 1 0) (bb.getD 3 0) img).map
          (pySlice (bb.getD 0 0) (bb.getD 2 0)))) := by
  refine ⟨fun bbox => ⟨rfl, ?_⟩, fun img hv => ?_, fun img bb => rfl⟩
  · cases bbox <;> rfl
  · unfold convert_to_rgb
    rw [hv]
    simp

/-- C1, witness for the amended theorem: the one-empty-row image is
non-null and invalid, and `convert_to_rgb` rejects it. -/
theorem c1_amended_witness :
    convert_to_rgb (some ([[]] : Img)) = Except.error Exc.invalidImage :=
  c1_amended_theorem.2.1 [[]] rfl

/-- C3: for every non-null image and null bbox, `get_facial_ROI` raises
`ValueError`, an error kind distinct from `InvalidImage`. -/
theorem c3_theorem (img : Img) :
    get_facial_ROI (some img) none = Except.error Exc.valueError ∧
    Exc.valueError ≠ Exc.invalidImage :=
  ⟨rfl, by decide⟩

/-- C8: `load_image_path` with mode `"rgb"` returns `convert_to_rgb` of
the decoded file, with any other mode returns the decoded file as-is, and
any failure of the underlying read propagates unchanged. -/
theorem c8_theorem :
    (∀ (imread : String → Except Exc (Option Img)) (path : String)
        (img : Option Img), imread path = Except.ok img →
      load_image_path imread path ("rgb") = (convert_to_rgb img).map some) ∧
    (∀ (imread : String → Except Exc (Option Img)) (path mode : String)
        (img : Option Img), mode ≠ "rgb" → imread path = Except.ok img →
      load_image_path imread path mode = Except.ok img) ∧
    (∀ (imread : String → Except Exc (Option Img)) (path mode : String)
        (e : Exc), imread path = Except.error e →
      load_image_path imread path mode = Except.error e) := by
  refine ⟨fun imread path img h => ?_, fun imread path mode img hm h => ?_,
    fun imread path mode e h => ?_⟩
  · unfold load_image_path
    rw [h]
    simp
  · unfold load_image_path
    rw [h]
    simp [hm]
  · unfold load_image_path
    rw [h]

/-- C8, witness: a failing read propagates its error unchanged through
`load_image_path`. -/
theorem c8_witness :
    load_image_path (fun _ => Except.error (Exc.libError ("boom"))) ("p")
      ("rgb") = Except.error (Exc.libError ("boom")) :=
  c8_theorem.2.2 (fun _ => Except.error (Exc.libError ("boom"))) ("p")
    ("rgb") (Exc.libError ("boom")) rfl

/-- C9: on every valid image, `convert_to_rgb` succeeds with the
channel-swapped image, and the inverse conversion undoes it exactly
(the round trip is the identity on the pixel array). -/
theorem c9_theorem (img : Img) (hv : is_valid_img (some img) = true) :
    convert_to_rgb (some img) = Except.ok (cvtColor_BGR2RGB img) ∧
    cvtColor_RGB2BGR (cvtColor_BGR2RGB img) = img := by
  constructor
  · unfold convert_to_rgb
    rw [if_pos hv]
    rfl
  · exact cvtColor_round_trip img

/-- C9, witness: the round trip on a concrete one-pixel BGR image. -/
theorem c9_witness :
    convert_to_rgb (some ([[[1, 2, 3]]] : Img)) =
        Except.ok (cvtColor_BGR2RGB [[[1, 2, 3]]]) ∧
      cvtColor_RGB2BGR (cvtColor_BGR2RGB [[[1, 2, 3]]]) = [[[1, 2, 3]]] :=
  c9_theorem [[[1, 2, 3]]] (by decide)

/-- C2: for every rectangular image and in-bounds bbox `[x1, y1, x2, y2]`
with `x1 < x2` and `y1 < y2`, `get_facial_ROI` returns the sub-array
slice of shape `(y2 - y1) × (x2 - x1) × channels`. -/
theorem c2_theorem (img : Img) (x1 y1 x2 y2 : Int) (W C : Nat)
    (hW : ∀ row ∈ img, row.length = W)
    (hC : ∀ row ∈ img, ∀ p ∈ row, p.length = C)
    (hx0 : 0 ≤ x1) (hxx : x1 < x2) (hxW : x2 ≤ (W : Int))
    (hy0 : 0 ≤ y1) (hyy : y1 < y2) (hyH : y2 ≤ (img.length : Int)) :
    ∃ roi, get_facial_ROI (some img) (some [x1, y1, x2, y2]) =
        Except.ok roi ∧
      roi.length = (y2 - y1).toNat ∧
      (∀ row ∈ roi, row.length = (x2 - x1).toNat) ∧
      (∀ row ∈ roi, ∀ p ∈ row, p.length = C) := by
  refine ⟨(pySlice y1 y2 img).map (pySlice x1 x2), rfl, ?_, ?_, ?_⟩
  · rw [List.length_map,
      pySlice_length_of_bounds img y1 y2 hy0 (le_of_lt hyy) hyH]
  · intro row hrow
    rcases List.mem_map.mp hrow with ⟨r, hr, hreq⟩
    have hrimg : r ∈ img := pySlice_mem hr
    rw [← hreq]
    exact pySlice_length_of_bounds r x1 x2 hx0 (le_of_lt hxx)
      (by rw [hW r hrimg]; exact hxW)
  · intro row hrow p hp
    rcases List.mem_map.mp hrow with ⟨r, hr, hreq⟩
    have hrimg : r ∈ img := pySlice_mem hr
    rw [← hreq] at hp
    exact hC r hrimg p (pySlice_mem hp)

/-- C2, witness: extracting the `[0, 0, 1, 1]` region of a concrete
2 × 2 × 2 image yields a 1 × 1 × 2 region. -/
theorem c2_witness :
    ∃ roi,
      get_facial_ROI
          (some ([[[1, 2], [3, 4]], [[5, 6], [7, 8]]] : Img))
          (some [0, 0, 1, 1]) = Except.ok roi ∧
        roi.length = ((1 : Int) - 0).toNat ∧
        (∀ row ∈ roi, row.length = ((1 : Int) - 0).toNat) ∧
        (∀ row ∈ roi, ∀ p ∈ row, p.length = 2) :=
  c2_theorem [[[1, 2], [3, 4]], [[5, 6], [7, 8]]] 0 0 1 1 2 2
    (by decide) (by decide) (by decide) (by decide) (by decide)
    (by decide) (by decide) (by decide)

/-- C5: `annotate_warning` leaves the caller's buffer untouched (all
drawing happens on a copy) and returns a freshly allocated buffer, not
the input one. -/
theorem c5_theorem (dt : TextDraw) (warning_text : String) (h : Heap)
    (b : Nat) (hb : b < h.length) :
    (annotate_warning dt warning_text h b).1.getD b [] = h.getD b [] ∧
    (annotate_warning dt warning_text h b).2 ≠ b :=
  ⟨heap_getD_append h _ b hb, Nat.ne_of_gt hb⟩

/-- C5, witness: a concrete one-buffer heap with the identity rasteriser. -/
theorem c5_witness :
    (annotate_warning (fun _ _ _ _ im => im) ("w") [[[[1]]]] 0).1.getD 0 []
        = ([[[[1]]]] : Heap).getD 0 [] ∧
      (annotate_warning (fun _ _ _ _ im => im) ("w") [[[[1]]]] 0).2 ≠ 0 :=
  c5_theorem (fun _ _ _ _ im => im) ("w") [[[[1]]]] 0 (by decide)

theorem draw_bounding_box_eq (image : Img) (x1 y1 x2 y2 : Int)
    (color : Pix) :
    draw_bounding_box image [x1, y1, x2, y2] color =
      cv2_rectangle image x1 y1 x2 y2 color 2 := rfl

/-- C10: `annotate_emotion_stats` mutates the caller's buffer in place —
after the call the input buffer holds exactly the bar pass (whatever the
text rasteriser does), while the text goes only to the returned fresh
buffer. -/
theorem c10_theorem (dt dt' : TextDraw)
    (emotion_data : List (String × Int)) (h : Heap) (b : Nat)
    (hb : b < h.length) :
    (annotate_emotion_stats dt emotion_data h b).1.getD b [] =
        draw_bars emotion_data (h.getD b []) ∧
      (annotate_emotion_stats dt emotion_data h b).1.getD b [] =
        (annotate_emotion_stats dt' emotion_data h b).1.getD b [] ∧
      (annotate_emotion_stats dt emotion_data h b).2 ≠ b ∧
      (annotate_emotion_stats dt emotion_data h b).1.getD
          ((annotate_emotion_stats dt emotion_data h b).2) [] =
        annotate_texts_from dt 0 emotion_data
          (draw_bars emotion_data (h.getD b [])) :=
  have hb' : b <
      (h.set b (draw_bars emotion_data (h.getD b []))).length := by
    rw [List.length_set]; exact hb
  have hmain : ∀ dtx : TextDraw,
      (annotate_emotion_stats dtx emotion_data h b).1.getD b [] =
        draw_bars emotion_data (h.getD b []) := fun dtx =>
    (heap_getD_append _ _ b hb').trans (heap_getD_set_self h b _ hb)
  ⟨hmain dt, (hmain dt).trans (hmain dt').symm, Nat.ne_of_gt hb',
    heap_getD_append_self _ _⟩

/-- C10, witness: a concrete one-buffer heap with two different text
rasterisers. -/
theorem c10_witness :
    (annotate_emotion_stats (fun _ _ _ _ im => im) [("happy", 80)]
        [[[[1]]]] 0).1.getD 0 [] =
      draw_bars [("happy", 80)] (([[[[1]]]] : Heap).getD 0 []) :=
  (c10_theorem (fun _ _ _ _ im => im) (fun _ _ _ _ _ => [])
    [("happy", 80)] [[[[1]]]] 0 (by decide)).1

/-- C7: `draw_bounding_box_annotation` draws the 2-px outline of the
20-px-taller box `(x1, y1)-(x2, y2 + 20)` and fills the label strip
`(x1, y2)-(x2, y2 + 20)` with the box color in the caller's buffer,
renders the label in black through `bbox_font` (16 pt) at
`(x1 + 20, y2 + 2)` into the returned image, and the returned value is a
fresh buffer, not the input one. -/
theorem c7_theorem (dt : TextDraw) (label : String) (x1 y1 x2 y2 : Int)
    (color : Pix) (h : Heap) (b : Nat) (hb : b < h.length) :
    ( draw_bounding_box_annotation dt label [x1, y1, x2, y2] color h b).2
        ≠ b ∧
      ( draw_bounding_box_annotation dt label [x1, y1, x2, y2] color h
            b).1.getD b [] =
        cv2_rectangle
          (draw_bounding_box (h.getD b []) [x1, y1, x2, y2 + 20] color)
          x1 y2 x2 (y2 + 20) color (-1) ∧
      ( draw_bounding_box_annotation dt label [x1, y1, x2, y2] color h
            b).1.getD
          (( draw_bounding_box_annotation dt label [x1, y1, x2, y2] color
              h b).2) [] =
        dt (x1 + 20, y2 + 2) label [0, 0, 0] bbox_font
          (cv2_rectangle
            (draw_bounding_box (h.getD b []) [x1, y1, x2, y2 + 20] color)
            x1 y2 x2 (y2 + 20) color (-1)) ∧
      bbox_font = ("data/Ubuntu-R.ttf", 16) ∧
      (∀ x y : Nat, x1 ≤ (x : Int) → (x : Int) ≤ x2 → y2 ≤ (y : Int) →
        (y : Int) ≤ y2 + 20 → y < (h.getD b []).length →
        x < ((h.getD b []).getD y []).length →
        px (cv2_rectangle
            (draw_bounding_box (h.getD b []) [x1, y1, x2, y2 + 20] color)
            x1 y2 x2 (y2 + 20) color (-1)) y x = color) ∧
      (∀ x y : Nat,
        rectCovered x1 y1 x2 (y2 + 20) 2 (x : Int) (y : Int) →
        y < (h.getD b []).length →
        x < ((h.getD b []).getD y []).length →
        px (cv2_rectangle
            (draw_bounding_box (h.getD b []) [x1, y1, x2, y2 + 20] color)
            x1 y2 x2 (y2 + 20) color (-1)) y x = color) := by
  have hb' : b < (h.set b
      (cv2_rectangle
        (draw_bounding_box (h.getD b []) [x1, y1, x2, y2 + 20] color)
        x1 y2 x2 (y2 + 20) color (-1))).length := by
    rw [List.length_set]; exact hb
  refine ⟨Nat.ne_of_gt hb',
    (heap_getD_append _ _ b hb').trans (heap_getD_set_self h b _ hb),
    heap_getD_append_self _ _, rfl, ?_, ?_⟩
  · intro x y hx1 hx2 hy1 hy2 hyb hxb
    have hyb' : y < (draw_bounding_box (h.getD b [])
        [x1, y1, x2, y2 + 20] color).length := by
      rw [draw_bounding_box_eq, length_cv2_rectangle]; exact hyb
    have hxb' : x < ((draw_bounding_box (h.getD b [])
        [x1, y1, x2, y2 + 20] color).getD y []).length := by
      rw [draw_bounding_box_eq, row_length_cv2_rectangle _ _ _ _ _ _ _ _ hyb]
      exact hxb
    rw [px_cv2_rectangle, if_pos ⟨hyb', hxb', by omega⟩]
  · intro x y hcov hyb hxb
    have hyb' : y < (draw_bounding_box (h.getD b [])
        [x1, y1, x2, y2 + 20] color).length := by
      rw [draw_bounding_box_eq, length_cv2_rectangle]; exact hyb
    have hxb' : x < ((draw_bounding_box (h.getD b [])
        [x1, y1, x2, y2 + 20] color).getD y []).length := by
      rw [draw_bounding_box_eq, row_length_cv2_rectangle _ _ _ _ _ _ _ _ hyb]
      exact hxb
    rw [px_cv2_rectangle]
    by_cases hstrip : rectCovered x1 y2 x2 (y2 + 20) (-1) (x : Int) (y : Int)
    · rw [if_pos ⟨hyb', hxb', hstrip⟩]
    · rw [if_neg (fun hcon => hstrip hcon.2.2)]
      rw [draw_bounding_box_eq, px_cv2_rectangle, if_pos ⟨hyb, hxb, hcov⟩]

/-- C7, witness: the returned buffer is fresh on a concrete heap. -/
theorem c7_witness :
    ( draw_bounding_box_annotation (fun _ _ _ _ im => im) ("L")
        [0, 0, 3, 3] [1, 2, 3] [[]] 0).2 ≠ 0 :=
  (c7_theorem (fun _ _ _ _ im => im) ("L") 0 0 3 3 [1, 2, 3] [[]] 0
    (by decide)).1

theorem annotate_stats_buffer_after (dt : TextDraw)
    (data : List (String × Int)) (h : Heap) (b : Nat)
    (hb : b < h.length) :
    (annotate_emotion_stats dt data h b).1.getD b [] =
      draw_bars data (h.getD b []) :=
  have hb' : b < (h.set b (draw_bars data (h.getD b []))).length := by
    rw [List.length_set]; exact hb
  (heap_getD_append _ _ b hb').trans (heap_getD_set_self h b _ hb)

/-- C6: the bar pass of `annotate_emotion_stats` paints, for the entry at
display index `i` with confidence `conf`, exactly the pixels with
`100 ≤ x ≤ 100 + conf` and `20 i + 20 ≤ y ≤ 20 i + 38` in `(255, 0, 0)`;
for the ordered data `{"happy": 80, "sad": 20}` the caller's buffer ends
up with a bar over `x ∈ [100, 180]`, `y ∈ [20, 38]` and one over
`x ∈ [100, 120]`, `y ∈ [40, 58]`, and no other pixel changes. -/
theorem c6_theorem :
    (∀ (emotion_data : List (String × Int)) (img : Img)
        (i x y : Nat) (conf : Int),
      i < emotion_data.length →
      (emotion_data.getD i ("", 0)).2 = conf →
      100 ≤ (x : Int) → (x : Int) ≤ 100 + conf →
      20 * (i : Int) + 20 ≤ (y : Int) → (y : Int) ≤ 20 * (i : Int) + 38 →
      y < img.length → x < (img.getD y []).length →
      px (draw_bars emotion_data img) y x = [255, 0, 0]) ∧
    (∀ (dt : TextDraw) (h : Heap) (b x y : Nat),
      b < h.length →
      y < (h.getD b []).length → x < ((h.getD b []).getD y []).length →
      ((100 ≤ x ∧ x ≤ 180 ∧ 20 ≤ y ∧ y ≤ 38) ∨
        (100 ≤ x ∧ x ≤ 120 ∧ 40 ≤ y ∧ y ≤ 58)) →
      px ((annotate_emotion_stats dt [("happy", 80), ("sad", 20)] h
          b).1.getD b []) y x = [255, 0, 0]) ∧
    (∀ (dt : TextDraw) (h : Heap) (b x y : Nat),
      b < h.length →
      ¬ ((100 ≤ x ∧ x ≤ 180 ∧ 20 ≤ y ∧ y ≤ 38) ∨
        (100 ≤ x ∧ x ≤ 120 ∧ 40 ≤ y ∧ y ≤ 58)) →
      px ((annotate_emotion_stats dt [("happy", 80), ("sad", 20)] h
          b).1.getD b []) y x = px (h.getD b []) y x) := by
  have gen : ∀ (emotion_data : List (String × Int)) (img : Img)
      (i x y : Nat) (conf : Int),
      i < emotion_data.length →
      (emotion_data.getD i ("", 0)).2 = conf →
      100 ≤ (x : Int) → (x : Int) ≤ 100 + conf →
      20 * (i : Int) + 20 ≤ (y : Int) → (y : Int) ≤ 20 * (i : Int) + 38 →
      y < img.length → x < (img.getD y []).length →
      px (draw_bars emotion_data img) y x = [255, 0, 0] := by
    intro emotion_data img i x y conf hi hconf hx1 hx2 hy1 hy2 hyb hxb
    have hcast : ((0 + i : Nat) : Int) = (i : Int) := by push_cast; ring
    exact px_draw_bars_from_bar emotion_data 0 i img y x hi hx1
      (by rw [hconf]; exact hx2) (by rw [hcast]; exact hy1)
      (by rw [hcast]; exact hy2) hyb hxb
  refine ⟨gen, ?_, ?_⟩
  · intro dt h b x y hb hyb hxb hspan
    rw [annotate_stats_buffer_after dt _ h b hb]
    rcases hspan with ⟨hx1, hx2, hy1, hy2⟩ | ⟨hx1, hx2, hy1, hy2⟩
    · exact gen _ _ 0 x y 80 (by simp) rfl (by omega) (by omega)
        (by push_cast; omega) (by push_cast; omega) hyb hxb
    · exact gen _ _ 1 x y 20 (by simp) rfl (by omega) (by omega)
        (by push_cast; omega) (by push_cast; omega) hyb hxb
  · intro dt h b x y hb hno
    rw [annotate_stats_buffer_after dt _ h b hb]
    apply px_draw_bars_from_untouched
    intro j hj
    have hj2 : j = 0 ∨ j = 1 := by
      simp only [List.length_cons, List.length_nil] at hj
      omega
    rcases hj2 with rfl | rfl
    · simp only [List.getD_cons_zero]
      intro hcov
      obtain ⟨h1, h2, h3, h4, -⟩ := hcov
      refine hno (Or.inl ⟨?_, ?_, ?_, ?_⟩) <;> omega
    · simp only [List.getD_cons_succ, List.getD_cons_zero]
      intro hcov
      obtain ⟨h1, h2, h3, h4, -⟩ := hcov
      refine hno (Or.inr ⟨?_, ?_, ?_, ?_⟩) <;> omega

/-- C6, witness: the top-left pixel of the "happy" bar on a concrete
60 × 200 image is painted `(255, 0, 0)`. -/
theorem c6_witness :
    px (draw_bars [("happy", 80), ("sad", 20)]
        (List.replicate 60 (List.replicate 200 ([0, 0, 0] : Pix)))) 20 100 =
      [255, 0, 0] :=
  c6_theorem.1 [("happy", 80), ("sad", 20)]
    (List.replicate 60 (List.replicate 200 [0, 0, 0])) 0 100 20 80
    (by decide) rfl (by decide) (by decide) (by decide) (by decide)
    (by simp only [List.length_replicate]; decide)
    (by simp only [List.getD_eq_getElem?_getD, List.getElem?_replicate]
        norm_num)

/-- C4: on an image of height ≥ 470 whose rows hold ≥ 130 pixels of ≥ 3
channels, and a 120 × 120 × 4 emoji, `draw_emoji` sets every color
channel `c < 3` of every pixel in rows `350:470`, columns `10:130` to
`emoji_c * (emoji_3 / 255) + img_c * (1 - emoji_3 / 255)`; with alpha
255 everywhere the region equals the emoji's RGB channels, with alpha 0
everywhere the region is unchanged. -/
theorem c4_theorem (emoji img : Img)
    (hH : 470 ≤ img.length)
    (hW : ∀ row ∈ img, 130 ≤ row.length)
    (hCh : ∀ row ∈ img, ∀ p ∈ row, 3 ≤ p.length)
    (hE : emoji.length = 120)
    (hEW : ∀ row ∈ emoji, row.length = 120)
    (hECh : ∀ row ∈ emoji, ∀ p ∈ row, p.length = 4) :
    (∀ y x c : Nat, 350 ≤ y → y < 470 → 10 ≤ x → x < 130 → c < 3 →
      chan (draw_emoji emoji img) y x c =
        chan emoji (y - 350) (x - 10) c *
            (chan emoji (y - 350) (x - 10) 3 / 255) +
          chan img y x c *
            (1 - chan emoji (y - 350) (x - 10) 3 / 255)) ∧
    ((∀ row ∈ emoji, ∀ p ∈ row, p.getD 3 0 = 255) →
      ∀ y x c : Nat, 350 ≤ y → y < 470 → 10 ≤ x → x < 130 → c < 3 →
      chan (draw_emoji emoji img) y x c =
        chan emoji (y - 350) (x - 10) c) ∧
    ((∀ row ∈ emoji, ∀ p ∈ row, p.getD 3 0 = 0) →
      ∀ y x c : Nat, 350 ≤ y → y < 470 → 10 ≤ x → x < 130 → c < 3 →
      chan (draw_emoji emoji img) y x c = chan img y x c) := by
  have halpha : ∀ y x : Nat, 350 ≤ y → y < 470 → 10 ≤ x → x < 130 →
      px emoji (y - 350) (x - 10) ∈ emoji.getD (y - 350) [] ∧
        emoji.getD (y - 350) [] ∈ emoji := by
    intro y x hy1 hy2 hx1 hx2
    have hyE : y - 350 < emoji.length := by rw [hE]; omega
    have hrow : emoji.getD (y - 350) [] ∈ emoji := mem_of_getD hyE
    have hxE : x - 10 < (emoji.getD (y - 350) []).length := by
      rw [hEW _ hrow]; omega
    exact ⟨mem_of_getD hxE, hrow⟩
  have main : ∀ y x c : Nat, 350 ≤ y → y < 470 → 10 ≤ x → x < 130 →
      c < 3 →
      chan (draw_emoji emoji img) y x c =
        chan emoji (y - 350) (x - 10) c *
            (chan emoji (y - 350) (x - 10) 3 / 255) +
          chan img y x c *
            (1 - chan emoji (y - 350) (x - 10) 3 / 255) := by
    intro y x c hy1 hy2 hx1 hx2 hc
    have hyb : y < img.length := lt_of_lt_of_le hy2 hH
    have hrow : img.getD y [] ∈ img := mem_of_getD hyb
    have hxb : x < (img.getD y []).length :=
      lt_of_lt_of_le hx2 (hW _ hrow)
    have hpmem : (img.getD y []).getD x [] ∈ img.getD y [] :=
      mem_of_getD hxb
    have hpc : 3 ≤ ((img.getD y []).getD x []).length :=
      hCh _ hrow _ hpmem
    unfold chan
    rw [px_draw_emoji, if_pos ⟨hyb, hxb, ⟨hy1, hy2⟩, ⟨hx1, hx2⟩⟩]
    rw [getD_blendPix (px emoji (y - 350) (x - 10)) (px img y x) c
      (lt_of_lt_of_le hc hpc), if_pos hc]
  refine ⟨main, ?_, ?_⟩
  · intro hA y x c hy1 hy2 hx1 hx2 hc
    have h255 : chan emoji (y - 350) (x - 10) 3 = 255 := by
      obtain ⟨hpm, hrm⟩ := halpha y x hy1 hy2 hx1 hx2
      exact hA _ hrm _ hpm
    rw [main y x c hy1 hy2 hx1 hx2 hc, h255]
    norm_num
  · intro hA y x c hy1 hy2 hx1 hx2 hc
    have h0 : chan emoji (y - 350) (x - 10) 3 = 0 := by
      obtain ⟨hpm, hrm⟩ := halpha y x hy1 hy2 hx1 hx2
      exact hA _ hrm _ hpm
    rw [main y x c hy1 hy2 hx1 hx2 hc, h0]
    norm_num

/-- C4, witness: with an everywhere-opaque concrete emoji, the channel 0
value at the region's top-left corner equals the emoji's channel 0. -/
theorem c4_witness :
    chan (draw_emoji
        (List.replicate 120 (List.replicate 120 ([9, 8, 7, 255] : Pix)))
        (List.replicate 470 (List.replicate 130 ([1, 2, 3] : Pix))))
        350 10 0 =
      chan (List.replicate 120 (List.replicate 120 [9, 8, 7, 255]))
        (350 - 350) (10 - 10) 0 :=
  (c4_theorem
      (List.replicate 120 (List.replicate 120 [9, 8, 7, 255]))
      (List.replicate 470 (List.replicate 130 [1, 2, 3]))
      (by simp only [List.length_replicate]; decide)
      (by simp only [List.mem_replicate]
          intro row hrow
          simp [hrow.2])
      (by simp only [List.mem_replicate]
          intro row hrow p hp
          rw [hrow.2] at hp
          simp only [List.mem_replicate] at hp
          simp [hp.2])
      (by simp only [List.length_replicate])
      (by simp only [List.mem_replicate]
          intro row hrow
          simp [hrow.2])
      (by simp only [List.mem_replicate]
          intro row hrow p hp
          rw [hrow.2] at hp
          simp only [List.mem_replicate] at hp
          simp [hp.2])).2.1
    (by simp only [List.mem_replicate]
        intro row hrow p hp
        rw [hrow.2] at hp
        simp only [List.mem_replicate] at hp
        rw [hp.2]
        rfl)
    350 10 0 (by decide) (by decide) (by decide) (by decide) (by decide)

end MediaUtils
